import Mathlib

/-!
Verification of the SimpleRustOSC codec (src/lib.rs).

The Rust code is shallowly embedded as follows.

* Byte buffers on the decode side are `List Nat` (each entry one `u8`).
  A Rust indexed read `buf[i]` is modelled by `buf[i]?`; the source performs
  the read without a bounds check, so an out-of-range read is an index panic.
  Every decoding function therefore returns `Option (Except ParserError _)`:
  `none` models the panic (out-of-range access), `some (Except.error e)`
  models `Err(e)`, `some (Except.ok v)` models `Ok(v)`.

* Byte buffers on the encode side are total functions `Nat → Nat`: the
  source writes through a raw pointer re-sliced to a claimed capacity of
  4096, so a write at any offset lands (there is no bounds check that could
  stop it).  A write is a function update.

* Rust `String` values (addresses, string payloads) are modelled as the
  list of their character codes, which coincides with their UTF-8 bytes on
  the ASCII range the OSC address space uses.

* `f32` values are represented by their 32-bit big-endian bit pattern
  (a `Nat`), which is faithful because `f32::from_be_bytes` /
  `f32::to_be_bytes` are bit-level inverses.

* The `&mut usize` cursor of the source is passed and returned explicitly;
  the `*mut usize` out-parameter `messages_index` of `create_osc_bundle`
  becomes the third component of the result (its value after the call).

* The bundle timetag is computed from the wall clock in the source
  (`secs << 32 | nanos`); the already-combined 64-bit value is taken here
  as an explicit `time` parameter.
-/

namespace SimpleRustOSC

/-- `ParserError` from src/lib.rs (note: there is no Truncated variant). -/
inductive ParserError
  | InvalidAddress
  | InvalidType
  | InvalidValue
deriving DecidableEq

/-- `OscType` from src/lib.rs. -/
inductive OscType
  | Int
  | Float
  | Bool
  | String
deriving DecidableEq

/-- `OscValue` from src/lib.rs: a C-style struct carrying all four fields,
with only the field matching the active tag populated.  The defaults are
the initialisation `OscValue { int: 0, float: 0.0, bool: false, string: null }`
used by the decoder; `float` is the f32 bit pattern, `string` is `none`
for the null pointer. -/
structure OscValue where
  int : Int := 0
  float : Nat := 0
  bool : Bool := false
  string : Option (List Nat) := none
deriving DecidableEq

/-- `OscMessage` from src/lib.rs. -/
structure OscMessage where
  address : List Nat
  osc_type : OscType
  value : OscValue
deriving DecidableEq

/-- The scan loop `while buf[*ix] != 0 { push; *ix += 1 } ; *ix += 1` shared
by the address decoder and the string branch of the value decoder.  `fuel`
only bounds the recursion so that the definition is structural: with
`fuel = buf.length + 1` it can never run out before the loop's own exit,
because the cursor grows by one per step and a cursor past the end of the
buffer is an out-of-range read (`none`) already. -/
def scanToZero (buf : List Nat) : Nat → Nat → List Nat → Option (List Nat × Nat)
  | 0, _, _ => none
  | fuel + 1, ix, acc =>
    match buf[ix]? with
    | none => none
    | some b => if b = 0 then some (acc, ix + 1) else scanToZero buf fuel (ix + 1) (acc ++ [b])

/-- Round a cursor up to the next multiple of 4:
`if *ix % 4 != 0 { *ix += 4 - (*ix % 4) }` (lines 58-60 and 207-209). -/
def pad4 (n : Nat) : Nat := if n % 4 = 0 then n else n + (4 - n % 4)

/-- `extract_osc_address` (src/lib.rs lines 41-63).  Returns the collected
address and the cursor after the null terminator and padding. -/
def extract_osc_address (buf : List Nat) (ix : Nat) :
    Option (Except ParserError (List Nat × Nat)) :=
  match buf[0]? with
  | none => none
  | some b0 =>
    if b0 = 47 then
      match scanToZero buf (buf.length + 1) ix [] with
      | none => none
      | some r => some (Except.ok (r.1, pad4 r.2))
    else some (Except.error ParserError.InvalidAddress)

/-- `i32::from_be_bytes` composed with the byte recomposition: interpret a
32-bit big-endian word as a signed integer. -/
def toI32 (n : Nat) : Int :=
  if n % 4294967296 < 2147483648 then ((n % 4294967296 : Nat) : Int)
  else ((n % 4294967296 : Nat) : Int) - 4294967296

/-- The 4-byte read `bytes.copy_from_slice(&buf[*ix..*ix + 4])` followed by
big-endian recomposition; `none` models the out-of-range slice panic. -/
def read4 (buf : List Nat) (ix : Nat) : Option Nat :=
  match buf[ix]?, buf[ix + 1]?, buf[ix + 2]?, buf[ix + 3]? with
  | some b0, some b1, some b2, some b3 => some (((b0 * 256 + b1) * 256 + b2) * 256 + b3)
  | _, _, _, _ => none

/-- `extract_osc_value` (src/lib.rs lines 65-114).  The returned `Nat` is
the final cursor (the source's `*ix`): `*ix += 1` past the comma and
`*ix += 3` after reading the tag, so it is `ix + 4` on every success —
the `'i'`/`'f'` arms read their 4 payload bytes without incrementing
`*ix`, and the `'s'` arm moves it through the scan loop. -/
def extract_osc_value (buf : List Nat) (ix : Nat) :
    Option (Except ParserError (OscType × OscValue × Nat)) :=
  match buf[ix]? with
  | none => none
  | some c =>
    if c = 44 then
      match buf[ix + 1]? with
      | none => none
      | some t =>
        if t = 105 then
          match read4 buf (ix + 4) with
          | none => none
          | some n => some (Except.ok (OscType.Int, { int := toI32 n }, ix + 4))
        else if t = 102 then
          match read4 buf (ix + 4) with
          | none => none
          | some n => some (Except.ok (OscType.Float, { float := n }, ix + 4))
        else if t = 84 then some (Except.ok (OscType.Bool, { bool := true }, ix + 4))
        else if t = 70 then some (Except.ok (OscType.Bool, { bool := false }, ix + 4))
        else if t = 115 then
          match scanToZero buf (buf.length + 1) (ix + 4) [] with
          | none => none
          | some r => some (Except.ok (OscType.String, { string := some r.1 }, r.2))
        else some (Except.error ParserError.InvalidType)
    else some (Except.error ParserError.InvalidType)

/-- `parse` (src/lib.rs lines 116-140).  Both extractors run before the
match on the pair of results; when the address extractor returns `Err` it
has not moved the cursor, so the value extractor starts at 0. -/
def parse (buf : List Nat) : Option (Except ParserError OscMessage) :=
  match extract_osc_address buf 0 with
  | none => none
  | some addrRes =>
    match extract_osc_value buf (match addrRes with
      | Except.ok a => a.2
      | Except.error _ => 0) with
    | none => none
    | some valRes =>
      match addrRes, valRes with
      | Except.ok a, Except.ok v => some (Except.ok ⟨a.1, v.1, v.2.1⟩)
      | Except.error e, _ => some (Except.error e)
      | Except.ok _, Except.error e => some (Except.error e)

/-- A single byte store `buf[i] = b` through the raw output pointer. -/
def setB (f : Nat → Nat) (i b : Nat) : Nat → Nat :=
  fun j => if j = i then b else f j

/-- `buf[ix..ix + bytes.len()].copy_from_slice(bytes)`: consecutive stores. -/
def writeSlice (f : Nat → Nat) (ix : Nat) : List Nat → Nat → Nat
  | [] => f
  | b :: bs => writeSlice (setB f ix b) (ix + 1) bs

/-- Big-endian bytes of a 32-bit word (`u32::to_be_bytes`, and the last four
bytes of `i32::to_be_bytes`). -/
def be4 (n : Nat) : List Nat :=
  [n / 16777216 % 256, n / 65536 % 256, n / 256 % 256, n % 256]

/-- Big-endian bytes of a 64-bit word (`u64::to_be_bytes`). -/
def be8 (n : Nat) : List Nat := be4 (n / 4294967296) ++ be4 n

/-- `i32::to_be_bytes`: the two's-complement 32-bit pattern, big-endian
(`%` on `Int` is the euclidean remainder, so the pattern is in `[0, 2^32)`). -/
def i32be (v : Int) : List Nat := be4 (v % 4294967296).toNat

/-- `write_address` (src/lib.rs lines 201-210): address bytes, a null
terminator, then the cursor (relative to `base`) is rounded up to a multiple
of 4 without writing the padding bytes.  `base` is the offset of the raw
output pointer inside the surrounding allocation (0 for a direct call);
the source's `*ix` starts at 0 and the returned cursor is relative. -/
def write_address (f : Nat → Nat) (base : Nat) (address : List Nat) :
    (Nat → Nat) × Nat :=
  (setB (writeSlice f base address) (base + address.length) 0,
   pad4 (address.length + 1))

/-- `create_osc_message` (src/lib.rs lines 213-245).  Returns the written
buffer and the byte count `ix`.  The comma is written, the tag byte is
written, and the cursor then skips 3 bytes without writing them; the
Int/Float payload goes at cursor + 4; the String arm only logs a
placeholder and writes nothing beyond the comma. -/
def create_osc_message (f : Nat → Nat) (base : Nat) (m : OscMessage) :
    (Nat → Nat) × Nat :=
  match write_address f base m.address with
  | (f1, p) =>
    let f2 := setB f1 (base + p) 44
    match m.osc_type with
    | OscType.Int =>
        (writeSlice (setB f2 (base + p + 1) 105) (base + p + 4) (i32be m.value.int),
         p + 4 + 4)
    | OscType.Float =>
        (writeSlice (setB f2 (base + p + 1) 102) (base + p + 4) (be4 m.value.float),
         p + 4 + 4)
    | OscType.Bool =>
        (setB f2 (base + p + 1) (if m.value.bool then 84 else 70), p + 4)
    | OscType.String =>
        (f2, p + 1)

/-- The byte sequence produced by `create_osc_message` into a fresh
zero-initialised buffer (as in the repository's own tests): the first
`bytes_written` bytes of the output buffer. -/
def encode_message_bytes (m : OscMessage) : List Nat :=
  match create_osc_message (fun _ => 0) 0 m with
  | (g, n) => (List.range n).map g

/-- The literal `b"#bundle\0"` written at the start of every bundle. -/
def bundleHeader : List Nat := [35, 98, 117, 110, 100, 108, 101, 0]

/-- The message loop of `create_osc_bundle` (src/lib.rs lines 272-294).
`message_ix` is the running local counter; `start0` is the value the
`messages_index` out-parameter held at entry.  On the capacity early
return (line 282) the source returns without executing line 297, so the
out-parameter keeps `start0`; only when the loop completes is it set to
the final `message_ix`.  Result: (buffer, `ix`, value of `*messages_index`
after the call). -/
def bundleLoop (f : Nat → Nat) (ix : Nat) (msgs : List OscMessage)
    (message_ix start0 : Nat) : (Nat → Nat) × Nat × Nat :=
  match msgs with
  | [] => (f, ix, message_ix)
  | msg :: rest =>
    let padded_length := pad4 (msg.address.length + 1)
    if 4096 < ix + padded_length + 4 then (f, ix, start0)
    else
      match create_osc_message f (ix + 4) msg with
      | (f2, length) =>
        bundleLoop (writeSlice f2 ix (be4 (length % 4294967296)))
          (ix + length + 4) rest (message_ix + 1) start0

/-- `create_osc_bundle` (src/lib.rs lines 249-300): 8-byte header literal,
8-byte big-endian timetag, then the length-prefixed messages starting at
`messages[start]`.  `time` is the already-combined 64-bit timetag value
(`secs << 32 | nanos` in the source); the `as u32` cast of each message
length and the 64-bit wrap of the timetag are the `%` reductions. -/
def create_osc_bundle (time : Nat) (f : Nat → Nat) (messages : List OscMessage)
    (start : Nat) : (Nat → Nat) × Nat × Nat :=
  let f1 := writeSlice f 0 bundleHeader
  let f2 := writeSlice f1 8 (be8 (time % 18446744073709551616))
  bundleLoop f2 16 (messages.drop start) start start

/-! ### Basic lemmas about buffer reads and writes -/

theorem setB_self (f : Nat → Nat) (i b : Nat) : setB f i b i = b := by
  simp [setB]

theorem setB_other (f : Nat → Nat) (i b j : Nat) (h : j ≠ i) : setB f i b j = f j := by
  simp [setB, h]

theorem writeSlice_low (bytes : List Nat) :
    ∀ (f : Nat → Nat) (ix j : Nat), j < ix → writeSlice f ix bytes j = f j := by
  induction bytes with
  | nil => intro f ix j h; rfl
  | cons b bs ih =>
    intro f ix j h
    simp only [writeSlice]
    rw [ih (setB f ix b) (ix + 1) j (by omega), setB_other f ix b j (by omega)]

theorem writeSlice_high (bytes : List Nat) :
    ∀ (f : Nat → Nat) (ix j : Nat), ix + bytes.length ≤ j → writeSlice f ix bytes j = f j := by
  induction bytes with
  | nil => intro f ix j h; rfl
  | cons b bs ih =>
    intro f ix j h
    simp only [List.length_cons] at h
    simp only [writeSlice]
    rw [ih (setB f ix b) (ix + 1) j (by omega), setB_other f ix b j (by omega)]

theorem writeSlice_getD (bytes : List Nat) :
    ∀ (f : Nat → Nat) (ix k : Nat), k < bytes.length →
      writeSlice f ix bytes (ix + k) = bytes.getD k 0 := by
  induction bytes with
  | nil => intro f ix k h; simp at h
  | cons b bs ih =>
    intro f ix k h
    simp only [writeSlice]
    cases k with
    | zero =>
      rw [writeSlice_low bs (setB f ix b) (ix + 1) (ix + 0) (by omega)]
      simp [setB]
    | succ k =>
      have hx : ix + (k + 1) = (ix + 1) + k := by omega
      rw [hx, ih (setB f ix b) (ix + 1) k (by simpa using h)]
      rfl

theorem writeSlice_getD_zero (bytes : List Nat) (f : Nat → Nat) (ix : Nat)
    (h : 0 < bytes.length) : writeSlice f ix bytes ix = bytes.getD 0 0 := by
  have hw := writeSlice_getD bytes f ix 0 h
  rwa [Nat.add_zero] at hw

theorem pad4_ge (n : Nat) : n ≤ pad4 n := by
  unfold pad4; split <;> omega

theorem pad4_lt (n : Nat) : pad4 n < n + 4 := by
  unfold pad4; split <;> omega

theorem getElem?_lt_length {buf : List Nat} {i v : Nat} (h : buf[i]? = some v) :
    i < buf.length := by
  by_contra hc
  rw [List.getElem?_eq_none (by omega)] at h
  exact Option.noConfusion h

theorem range_map_getElem (g : Nat → Nat) (n j : Nat) (h : j < n) :
    ((List.range n).map g)[j]? = some (g j) := by
  rw [List.getElem?_map, List.getElem?_range h]
  rfl

/-! ### The scan loop -/

/-- When the buffer holds, at `ix`, a zero-free prefix `pre` followed by a
null byte, the scan loop collects exactly `pre` and stops one past the
terminator; any fuel larger than `pre.length` suffices. -/
theorem scanToZero_spec (buf : List Nat) (pre : List Nat) :
    ∀ (fuel ix : Nat) (acc : List Nat), pre.length < fuel →
      (∀ k v, pre[k]? = some v → buf[ix + k]? = some v) →
      (∀ b ∈ pre, b ≠ 0) →
      buf[ix + pre.length]? = some 0 →
      scanToZero buf fuel ix acc = some (acc ++ pre, ix + pre.length + 1) := by
  induction pre with
  | nil =>
    intro fuel ix acc hf h1 h2 h3
    match fuel, hf with
    | fuel + 1, _ =>
      simp only [List.length_nil, Nat.add_zero] at h3
      simp [scanToZero, h3]
  | cons b bs ih =>
    intro fuel ix acc hf h1 h2 h3
    match fuel, hf with
    | fuel + 1, hf2 =>
      have hb : buf[ix]? = some b := by
        have := h1 0 b (by simp)
        simpa using this
      have hbz : b ≠ 0 := h2 b (by simp)
      simp only [scanToZero, hb, if_neg hbz]
      have h1s : ∀ k v, bs[k]? = some v → buf[(ix + 1) + k]? = some v := by
        intro k v hk
        have := h1 (k + 1) v (by simpa using hk)
        have hx : ix + (k + 1) = (ix + 1) + k := by omega
        rwa [hx] at this
      have h3s : buf[(ix + 1) + bs.length]? = some 0 := by
        have hx : ix + (b :: bs).length = (ix + 1) + bs.length := by simp; omega
        rwa [hx] at h3
      rw [ih fuel (ix + 1) (acc ++ [b])
          (by simp only [List.length_cons] at hf2; omega) h1s
          (fun x hx => h2 x (by simp [hx])) h3s]
      simp only [List.length_cons]
      have hx : ix + 1 + bs.length + 1 = ix + (bs.length + 1) + 1 := by omega
      rw [hx, List.append_assoc]
      rfl

/-! ### Evaluation of the extractors -/

/-- When the buffer starts with a zero-free `'/'`-led address followed by a
null byte, the address extractor returns it with the padded cursor. -/
theorem addr_extract (buf addr : List Nat)
    (h47 : addr[0]? = some 47)
    (hz : ∀ b ∈ addr, b ≠ 0)
    (hpre : ∀ (k v : Nat), addr[k]? = some v → buf[k]? = some v)
    (hterm : buf[addr.length]? = some 0) :
    extract_osc_address buf 0 = some (Except.ok (addr, pad4 (addr.length + 1))) := by
  have hb0 : buf[0]? = some 47 := hpre 0 47 h47
  have hscan := scanToZero_spec buf addr (buf.length + 1) 0 []
      (by have := getElem?_lt_length hterm; omega)
      (by intro k v hk; rw [Nat.zero_add]; exact hpre k v hk) hz
      (by rw [Nat.zero_add]; exact hterm)
  simp only [extract_osc_address, hb0, if_pos rfl, hscan]
  simp

theorem ev_int (buf : List Nat) (c b0 b1 b2 b3 : Nat) (hc : buf[c]? = some 44)
    (ht : buf[c + 1]? = some 105)
    (h0 : buf[c + 4]? = some b0) (h1 : buf[c + 4 + 1]? = some b1)
    (h2 : buf[c + 4 + 2]? = some b2) (h3 : buf[c + 4 + 3]? = some b3) :
    extract_osc_value buf c =
      some (Except.ok (OscType.Int,
        { int := toI32 (((b0 * 256 + b1) * 256 + b2) * 256 + b3) }, c + 4)) := by
  have hr : read4 buf (c + 4) = some (((b0 * 256 + b1) * 256 + b2) * 256 + b3) := by
    simp only [read4, h0, h1, h2, h3]
  simp [extract_osc_value, hc, ht, hr]

theorem ev_float (buf : List Nat) (c b0 b1 b2 b3 : Nat) (hc : buf[c]? = some 44)
    (ht : buf[c + 1]? = some 102)
    (h0 : buf[c + 4]? = some b0) (h1 : buf[c + 4 + 1]? = some b1)
    (h2 : buf[c + 4 + 2]? = some b2) (h3 : buf[c + 4 + 3]? = some b3) :
    extract_osc_value buf c =
      some (Except.ok (OscType.Float,
        { float := ((b0 * 256 + b1) * 256 + b2) * 256 + b3 }, c + 4)) := by
  have hr : read4 buf (c + 4) = some (((b0 * 256 + b1) * 256 + b2) * 256 + b3) := by
    simp only [read4, h0, h1, h2, h3]
  simp [extract_osc_value, hc, ht, hr]

theorem ev_boolT (buf : List Nat) (c : Nat) (hc : buf[c]? = some 44)
    (ht : buf[c + 1]? = some 84) :
    extract_osc_value buf c =
      some (Except.ok (OscType.Bool, { bool := true }, c + 4)) := by
  simp [extract_osc_value, hc, ht]

theorem ev_boolF (buf : List Nat) (c : Nat) (hc : buf[c]? = some 44)
    (ht : buf[c + 1]? = some 70) :
    extract_osc_value buf c =
      some (Except.ok (OscType.Bool, { bool := false }, c + 4)) := by
  simp [extract_osc_value, hc, ht]

/-- `parse` assembles the message whenever both extractors succeed. -/
theorem parse_ok_of (buf addr : List Nat) (ix1 : Nat) (ty : OscType) (v : OscValue)
    (ix2 : Nat)
    (ha : extract_osc_address buf 0 = some (Except.ok (addr, ix1)))
    (hv : extract_osc_value buf ix1 = some (Except.ok (ty, v, ix2))) :
    parse buf = some (Except.ok ⟨addr, ty, v⟩) := by
  simp [parse, ha, hv]

/-! ### Pointwise reads of encoder output

For a zero-initialised output buffer the relevant positions of the bytes
produced by `create_osc_message` are: the address bytes, the null
terminator, the comma, the tag byte, and (for Int/Float) the 4 payload
bytes; the padding positions are 0 because the fresh buffer is 0 there. -/

theorem enc_int_reads (addr : List Nat) (i : Int) :
    (∀ (k v : Nat), addr[k]? = some v →
        (encode_message_bytes ⟨addr, OscType.Int, { int := i }⟩)[k]? = some v)
  ∧ (encode_message_bytes ⟨addr, OscType.Int, { int := i }⟩)[addr.length]? = some 0
  ∧ (encode_message_bytes ⟨addr, OscType.Int, { int := i }⟩)[pad4 (addr.length + 1)]? = some 44
  ∧ (encode_message_bytes ⟨addr, OscType.Int, { int := i }⟩)[pad4 (addr.length + 1) + 1]? = some 105
  ∧ (encode_message_bytes ⟨addr, OscType.Int, { int := i }⟩)[pad4 (addr.length + 1) + 4]? = some ((i32be i).getD 0 0)
  ∧ (encode_message_bytes ⟨addr, OscType.Int, { int := i }⟩)[pad4 (addr.length + 1) + 4 + 1]? = some ((i32be i).getD 1 0)
  ∧ (encode_message_bytes ⟨addr, OscType.Int, { int := i }⟩)[pad4 (addr.length + 1) + 4 + 2]? = some ((i32be i).getD 2 0)
  ∧ (encode_message_bytes ⟨addr, OscType.Int, { int := i }⟩)[pad4 (addr.length + 1) + 4 + 3]? = some ((i32be i).getD 3 0) := by
  have hP : addr.length + 1 ≤ pad4 (addr.length + 1) := pad4_ge _
  have hP4 : pad4 (addr.length + 1) < addr.length + 1 + 4 := pad4_lt _
  have hlen4 : (i32be i).length = 4 := by simp [i32be, be4]
  simp only [encode_message_bytes, create_osc_message, write_address, Nat.zero_add]
  refine ⟨?_, ?_, ?_, ?_, ?_, ?_, ?_, ?_⟩
  · intro k v hk
    have hkA : k < addr.length := getElem?_lt_length hk
    rw [range_map_getElem _ _ k (by omega)]
    rw [writeSlice_low _ _ _ _ (by omega)]
    rw [setB_other _ _ _ _ (by omega), setB_other _ _ _ _ (by omega),
        setB_other _ _ _ _ (by omega)]
    have hw := writeSlice_getD addr (fun _ => 0) 0 k hkA
    rw [Nat.zero_add] at hw
    rw [hw]
    rw [List.getD_eq_getElem?_getD, hk]
    rfl
  · rw [range_map_getElem _ _ addr.length (by omega)]
    rw [writeSlice_low _ _ _ _ (by omega)]
    rw [setB_other _ _ _ _ (by omega), setB_other _ _ _ _ (by omega), setB_self]
  · rw [range_map_getElem _ _ (pad4 (addr.length + 1)) (by omega)]
    rw [writeSlice_low _ _ _ _ (by omega)]
    rw [setB_other _ _ _ _ (by omega), setB_self]
  · rw [range_map_getElem _ _ (pad4 (addr.length + 1) + 1) (by omega)]
    rw [writeSlice_low _ _ _ _ (by omega)]
    rw [setB_self]
  · rw [range_map_getElem _ _ (pad4 (addr.length + 1) + 4) (by omega)]
    rw [writeSlice_getD_zero (i32be i) _ _ (by omega)]
  · rw [range_map_getElem _ _ (pad4 (addr.length + 1) + 4 + 1) (by omega)]
    rw [writeSlice_getD (i32be i) _ (pad4 (addr.length + 1) + 4) 1 (by omega)]
  · rw [range_map_getElem _ _ (pad4 (addr.length + 1) + 4 + 2) (by omega)]
    rw [writeSlice_getD (i32be i) _ (pad4 (addr.length + 1) + 4) 2 (by omega)]
  · rw [range_map_getElem _ _ (pad4 (addr.length + 1) + 4 + 3) (by omega)]
    rw [writeSlice_getD (i32be i) _ (pad4 (addr.length + 1) + 4) 3 (by omega)]

theorem enc_float_reads (addr : List Nat) (p : Nat) :
    (∀ (k v : Nat), addr[k]? = some v →
        (encode_message_bytes ⟨addr, OscType.Float, { float := p }⟩)[k]? = some v)
  ∧ (encode_message_bytes ⟨addr, OscType.Float, { float := p }⟩)[addr.length]? = some 0
  ∧ (encode_message_bytes ⟨addr, OscType.Float, { float := p }⟩)[pad4 (addr.length + 1)]? = some 44
  ∧ (encode_message_bytes ⟨addr, OscType.Float, { float := p }⟩)[pad4 (addr.length + 1) + 1]? = some 102
  ∧ (encode_message_bytes ⟨addr, OscType.Float, { float := p }⟩)[pad4 (addr.length + 1) + 4]? = some ((be4 p).getD 0 0)
  ∧ (encode_message_bytes ⟨addr, OscType.Float, { float := p }⟩)[pad4 (addr.length + 1) + 4 + 1]? = some ((be4 p).getD 1 0)
  ∧ (encode_message_bytes ⟨addr, OscType.Float, { float := p }⟩)[pad4 (addr.length + 1) + 4 + 2]? = some ((be4 p).getD 2 0)
  ∧ (encode_message_bytes ⟨addr, OscType.Float, { float := p }⟩)[pad4 (addr.length + 1) + 4 + 3]? = some ((be4 p).getD 3 0) := by
  have hP : addr.length + 1 ≤ pad4 (addr.length + 1) := pad4_ge _
  have hP4 : pad4 (addr.length + 1) < addr.length + 1 + 4 := pad4_lt _
  have hlen4 : (be4 p).length = 4 := by simp [be4]
  simp only [encode_message_bytes, create_osc_message, write_address, Nat.zero_add]
  refine ⟨?_, ?_, ?_, ?_, ?_, ?_, ?_, ?_⟩
  · intro k v hk
    have hkA : k < addr.length := getElem?_lt_length hk
    rw [range_map_getElem _ _ k (by omega)]
    rw [writeSlice_low _ _ _ _ (by omega)]
    rw [setB_other _ _ _ _ (by omega), setB_other _ _ _ _ (by omega),
        setB_other _ _ _ _ (by omega)]
    have hw := writeSlice_getD addr (fun _ => 0) 0 k hkA
    rw [Nat.zero_add] at hw
    rw [hw]
    rw [List.getD_eq_getElem?_getD, hk]
    rfl
  · rw [range_map_getElem _ _ addr.length (by omega)]
    rw [writeSlice_low _ _ _ _ (by omega)]
    rw [setB_other _ _ _ _ (by omega), setB_other _ _ _ _ (by omega), setB_self]
  · rw [range_map_getElem _ _ (pad4 (addr.length + 1)) (by omega)]
    rw [writeSlice_low _ _ _ _ (by omega)]
    rw [setB_other _ _ _ _ (by omega), setB_self]
  · rw [range_map_getElem _ _ (pad4 (addr.length + 1) + 1) (by omega)]
    rw [writeSlice_low _ _ _ _ (by omega)]
    rw [setB_self]
  · rw [range_map_getElem _ _ (pad4 (addr.length + 1) + 4) (by omega)]
    rw [writeSlice_getD_zero (be4 p) _ _ (by omega)]
  · rw [range_map_getElem _ _ (pad4 (addr.length + 1) + 4 + 1) (by omega)]
    rw [writeSlice_getD (be4 p) _ (pad4 (addr.length + 1) + 4) 1 (by omega)]
  · rw [range_map_getElem _ _ (pad4 (addr.length + 1) + 4 + 2) (by omega)]
    rw [writeSlice_getD (be4 p) _ (pad4 (addr.length + 1) + 4) 2 (by omega)]
  · rw [range_map_getElem _ _ (pad4 (addr.length + 1) + 4 + 3) (by omega)]
    rw [writeSlice_getD (be4 p) _ (pad4 (addr.length + 1) + 4) 3 (by omega)]

theorem enc_bool_reads (addr : List Nat) (b : Bool) :
    (∀ (k v : Nat), addr[k]? = some v →
        (encode_message_bytes ⟨addr, OscType.Bool, { bool := b }⟩)[k]? = some v)
  ∧ (encode_message_bytes ⟨addr, OscType.Bool, { bool := b }⟩)[addr.length]? = some 0
  ∧ (encode_message_bytes ⟨addr, OscType.Bool, { bool := b }⟩)[pad4 (addr.length + 1)]? = some 44
  ∧ (encode_message_bytes ⟨addr, OscType.Bool, { bool := b }⟩)[pad4 (addr.length + 1) + 1]? =
      some (if b then 84 else 70) := by
  have hP : addr.length + 1 ≤ pad4 (addr.length + 1) := pad4_ge _
  have hP4 : pad4 (addr.length + 1) < addr.length + 1 + 4 := pad4_lt _
  simp only [encode_message_bytes, create_osc_message, write_address, Nat.zero_add]
  refine ⟨?_, ?_, ?_, ?_⟩
  · intro k v hk
    have hkA : k < addr.length := getElem?_lt_length hk
    rw [range_map_getElem _ _ k (by omega)]
    rw [setB_other _ _ _ _ (by omega), setB_other _ _ _ _ (by omega),
        setB_other _ _ _ _ (by omega)]
    have hw := writeSlice_getD addr (fun _ => 0) 0 k hkA
    rw [Nat.zero_add] at hw
    rw [hw]
    rw [List.getD_eq_getElem?_getD, hk]
    rfl
  · rw [range_map_getElem _ _ addr.length (by omega)]
    rw [setB_other _ _ _ _ (by omega), setB_other _ _ _ _ (by omega), setB_self]
  · rw [range_map_getElem _ _ (pad4 (addr.length + 1)) (by omega)]
    rw [setB_other _ _ _ _ (by omega), setB_self]
  · rw [range_map_getElem _ _ (pad4 (addr.length + 1) + 1) (by omega)]
    rw [setB_self]

/-! ### Big-endian recomposition -/

theorem be4_recompose (p : Nat) (hp : p < 4294967296) :
    (((be4 p).getD 0 0 * 256 + (be4 p).getD 1 0) * 256 + (be4 p).getD 2 0) * 256
      + (be4 p).getD 3 0 = p := by
  simp only [be4, List.getD_cons_zero, List.getD_cons_succ]
  omega

theorem i32be_recompose (i : Int) (hlo : -2147483648 ≤ i) (hhi : i < 2147483648) :
    toI32 ((((i32be i).getD 0 0 * 256 + (i32be i).getD 1 0) * 256 + (i32be i).getD 2 0) * 256
      + (i32be i).getD 3 0) = i := by
  have hN : (i % 4294967296).toNat < 4294967296 := by omega
  rw [i32be, be4_recompose _ hN]
  unfold toI32
  split <;> omega

/-! ### The claims -/

/-- Claim C4: for every message whose type is Int, Float, or Bool, with a
well-formed `'/'`-prefixed (ASCII, zero-free) address that fits in the
4096-byte output buffer, and any in-range value, decoding the bytes
produced by encoding recovers the message exactly: same address, same type
tag, same value. -/
theorem decode_encode_roundtrip (addr : List Nat)
    (h47 : addr[0]? = some 47)
    (hascii : ∀ b ∈ addr, 0 < b ∧ b < 128)
    (_hfit : pad4 (addr.length + 1) + 8 ≤ 4096) :
    (∀ i : Int, -2147483648 ≤ i → i < 2147483648 →
        parse (encode_message_bytes ⟨addr, OscType.Int, { int := i }⟩) =
          some (Except.ok ⟨addr, OscType.Int, { int := i }⟩))
  ∧ (∀ p : Nat, p < 4294967296 →
        parse (encode_message_bytes ⟨addr, OscType.Float, { float := p }⟩) =
          some (Except.ok ⟨addr, OscType.Float, { float := p }⟩))
  ∧ (∀ b : Bool,
        parse (encode_message_bytes ⟨addr, OscType.Bool, { bool := b }⟩) =
          some (Except.ok ⟨addr, OscType.Bool, { bool := b }⟩)) := by
  have hz : ∀ x ∈ addr, x ≠ 0 := fun x hx => by have := hascii x hx; omega
  refine ⟨?_, ?_, ?_⟩
  · intro i hlo hhi
    obtain ⟨hpre, hterm, hcomma, htag, hp0, hp1, hp2, hp3⟩ := enc_int_reads addr i
    have ha := addr_extract _ addr h47 hz hpre hterm
    have hv := ev_int _ (pad4 (addr.length + 1)) _ _ _ _ hcomma htag hp0 hp1 hp2 hp3
    rw [i32be_recompose i hlo hhi] at hv
    exact parse_ok_of _ addr _ _ _ _ ha hv
  · intro p hp
    obtain ⟨hpre, hterm, hcomma, htag, hp0, hp1, hp2, hp3⟩ := enc_float_reads addr p
    have ha := addr_extract _ addr h47 hz hpre hterm
    have hv := ev_float _ (pad4 (addr.length + 1)) _ _ _ _ hcomma htag hp0 hp1 hp2 hp3
    rw [be4_recompose p hp] at hv
    exact parse_ok_of _ addr _ _ _ _ ha hv
  · intro b
    obtain ⟨hpre, hterm, hcomma, htag⟩ := enc_bool_reads addr b
    have ha := addr_extract _ addr h47 hz hpre hterm
    cases b with
    | true =>
      have hv := ev_boolT _ (pad4 (addr.length + 1)) hcomma (by simpa using htag)
      exact parse_ok_of _ addr _ _ _ _ ha hv
    | false =>
      have hv := ev_boolF _ (pad4 (addr.length + 1)) hcomma (by simpa using htag)
      exact parse_ok_of _ addr _ _ _ _ ha hv

/-- Witness for C4 at the concrete message `⟨"/a", Bool, true⟩`. -/
theorem decode_encode_roundtrip_witness :
    parse (encode_message_bytes ⟨[47, 97], OscType.Bool, { bool := true }⟩) =
      some (Except.ok ⟨[47, 97], OscType.Bool, { bool := true }⟩) :=
  (decode_encode_roundtrip [47, 97] rfl
    (by intro b hb; simp at hb; rcases hb with h | h <;> omega)
    (by decide)).2.2 true

/-- Claim C7 counterexample: decoding the value block
`[',', 'i', 0, 0, 0, 0, 0, 9]` at cursor 0 succeeds with Int 9, but the
final cursor is 4, not the 8 the claim asserts: the `'i'` arm of the
source reads its 4 payload bytes without incrementing `*ix`. -/
theorem value_decoder_payload_cursor_counterexample :
    extract_osc_value [44, 105, 0, 0, 0, 0, 0, 9] 0 =
      some (Except.ok (OscType.Int, { int := 9 }, 4))
  ∧ extract_osc_value [44, 105, 0, 0, 0, 0, 0, 9] 0 ≠
      some (Except.ok (OscType.Int, { int := 9 }, 8)) := by
  refine ⟨rfl, ?_⟩
  rw [show extract_osc_value [44, 105, 0, 0, 0, 0, 0, 9] 0 =
      some (Except.ok (OscType.Int, { int := 9 }, 4)) from rfl]
  simp

/-- Claim C7 (amended): on a buffer whose byte at cursor `c` is `','`, the
value decoder advances 1 past the comma, reads one type character, then
advances 3 more bytes regardless of content; for `'i'` it returns the Int
read from the next 4 bytes as a big-endian signed 32-bit integer, but the
payload read does not advance the cursor, so the final cursor is `c + 4`
(likewise `'f'` reads 4 big-endian bytes with final cursor `c + 4`), and
`'T'`/`'F'` return Bool true/false consuming no payload with final cursor
`c + 4`. -/
theorem value_decoder_cursor (buf : List Nat) (c : Nat) (hc : buf[c]? = some 44) :
    (∀ (b0 b1 b2 b3 : Nat), buf[c + 1]? = some 105 →
        buf[c + 4]? = some b0 → buf[c + 5]? = some b1 →
        buf[c + 6]? = some b2 → buf[c + 7]? = some b3 →
        extract_osc_value buf c = some (Except.ok (OscType.Int,
          { int := toI32 (((b0 * 256 + b1) * 256 + b2) * 256 + b3) }, c + 4)))
  ∧ (∀ (b0 b1 b2 b3 : Nat), buf[c + 1]? = some 102 →
        buf[c + 4]? = some b0 → buf[c + 5]? = some b1 →
        buf[c + 6]? = some b2 → buf[c + 7]? = some b3 →
        extract_osc_value buf c = some (Except.ok (OscType.Float,
          { float := ((b0 * 256 + b1) * 256 + b2) * 256 + b3 }, c + 4)))
  ∧ (buf[c + 1]? = some 84 →
        extract_osc_value buf c = some (Except.ok (OscType.Bool, { bool := true }, c + 4)))
  ∧ (buf[c + 1]? = some 70 →
        extract_osc_value buf c = some (Except.ok (OscType.Bool, { bool := false }, c + 4))) := by
  have e1 : c + 4 + 1 = c + 5 := by omega
  have e2 : c + 4 + 2 = c + 6 := by omega
  have e3 : c + 4 + 3 = c + 7 := by omega
  refine ⟨?_, ?_, ?_, ?_⟩
  · intro b0 b1 b2 b3 ht h0 h1 h2 h3
    exact ev_int buf c b0 b1 b2 b3 hc ht h0 (by rw [e1]; exact h1)
      (by rw [e2]; exact h2) (by rw [e3]; exact h3)
  · intro b0 b1 b2 b3 ht h0 h1 h2 h3
    exact ev_float buf c b0 b1 b2 b3 hc ht h0 (by rw [e1]; exact h1)
      (by rw [e2]; exact h2) (by rw [e3]; exact h3)
  · intro ht
    exact ev_boolT buf c hc ht
  · intro ht
    exact ev_boolF buf c hc ht

/-- Witness for the amended C7: decode the value block
`[',', 'i', 0, 0, 0, 0, 0, 9]` at cursor 0: Int 9, final cursor 4. -/
theorem value_decoder_cursor_witness :
    extract_osc_value [44, 105, 0, 0, 0, 0, 0, 9] 0 =
      some (Except.ok (OscType.Int, { int := 9 }, 4)) :=
  Eq.trans
    ((value_decoder_cursor [44, 105, 0, 0, 0, 0, 0, 9] 0 rfl).1 0 0 0 9
      rfl rfl rfl rfl rfl) rfl

/-- Claim C5 counterexample: the buffer `[',']` does not begin with `'/'`,
so the claim demands an `InvalidAddress` failure, but `parse` performs an
out-of-range read (the value decoder, run even after the address decoder
failed, reads the type character past the end) and panics instead. -/
theorem parse_no_slash_counterexample :
    parse [44] = none ∧
      parse [44] ≠ some (Except.error ParserError.InvalidAddress) := by
  refine ⟨rfl, ?_⟩
  rw [show parse [44] = none from rfl]
  simp

/-- Claim C5 (amended): whenever decoding completes without an out-of-range
read (`parse` returns a result), a buffer whose first byte is not `'/'`
fails with `InvalidAddress`; a buffer whose byte at the cursor after the
address padding is not `','` fails with `InvalidType`; and a buffer whose
type character is outside {i, f, T, F, s} fails with `InvalidType`. -/
theorem parse_error_kinds :
    (∀ (buf : List Nat) (b : Nat) (r : Except ParserError OscMessage),
        buf[0]? = some b → b ≠ 47 → parse buf = some r →
        r = Except.error ParserError.InvalidAddress)
  ∧ (∀ (buf addr : List Nat) (ix1 b : Nat),
        extract_osc_address buf 0 = some (Except.ok (addr, ix1)) →
        buf[ix1]? = some b → b ≠ 44 →
        parse buf = some (Except.error ParserError.InvalidType))
  ∧ (∀ (buf addr : List Nat) (ix1 t : Nat),
        extract_osc_address buf 0 = some (Except.ok (addr, ix1)) →
        buf[ix1]? = some 44 → buf[ix1 + 1]? = some t →
        t ≠ 105 → t ≠ 102 → t ≠ 84 → t ≠ 70 → t ≠ 115 →
        parse buf = some (Except.error ParserError.InvalidType)) := by
  refine ⟨?_, ?_, ?_⟩
  · intro buf b r hb hb47 hp
    have ha : extract_osc_address buf 0 = some (Except.error ParserError.InvalidAddress) := by
      simp [extract_osc_address, hb, hb47]
    cases hv : extract_osc_value buf 0 with
    | none =>
      simp only [parse, ha, hv] at hp
      exact Option.noConfusion hp
    | some vr =>
      simp only [parse, ha, hv] at hp
      exact (Option.some.inj hp).symm
  · intro buf addr ix1 b ha hb hb44
    have hv : extract_osc_value buf ix1 = some (Except.error ParserError.InvalidType) := by
      simp [extract_osc_value, hb, hb44]
    simp [parse, ha, hv]
  · intro buf addr ix1 t ha hb ht h105 h102 h84 h70 h115
    have hv : extract_osc_value buf ix1 = some (Except.error ParserError.InvalidType) := by
      simp [extract_osc_value, hb, ht, h105, h102, h84, h70, h115]
    simp [parse, ha, hv]

/-- Witness for the amended C5: the byte after the address padding of
`['/', 0, 0, 0, 'A']` is `'A'`, not `','`, and parse fails with
`InvalidType`. -/
theorem parse_error_kinds_witness :
    parse [47, 0, 0, 0, 65] = some (Except.error ParserError.InvalidType) :=
  parse_error_kinds.2.1 [47, 0, 0, 0, 65] [47] 4 65 rfl rfl (by decide)

/-- Claim C6 counterexample: on `[',', 'i']` the address decoder fails with
`InvalidAddress`, but `parse` does not return that error: the value decoder
(run from cursor 0 because the failing address decoder left the cursor
there) reads past the end of the buffer and panics. -/
theorem parse_composition_counterexample :
    extract_osc_address [44, 105] 0 = some (Except.error ParserError.InvalidAddress)
  ∧ parse [44, 105] = none := ⟨rfl, rfl⟩

/-- Claim C6 (amended): `parse` runs the address decoder and then the value
decoder; whenever it returns a result, an error result is exactly the
failing component's error (the address decoder's error taking precedence
when both fail), and a message is returned only when both components
succeed, assembled from their results, never partially populated. -/
theorem parse_composition :
    (∀ (buf : List Nat) (m : OscMessage), parse buf = some (Except.ok m) →
        ∃ (ix1 ix2 : Nat),
          extract_osc_address buf 0 = some (Except.ok (m.address, ix1)) ∧
          extract_osc_value buf ix1 = some (Except.ok (m.osc_type, m.value, ix2)))
  ∧ (∀ (buf : List Nat) (e : ParserError), parse buf = some (Except.error e) →
        (extract_osc_address buf 0 = some (Except.error e))
      ∨ (∃ (addr : List Nat) (ix1 : Nat),
          extract_osc_address buf 0 = some (Except.ok (addr, ix1)) ∧
          extract_osc_value buf ix1 = some (Except.error e)))
  ∧ (∀ (buf : List Nat) (ea : ParserError) (r : Except ParserError (OscType × OscValue × Nat)),
        extract_osc_address buf 0 = some (Except.error ea) →
        extract_osc_value buf 0 = some r →
        parse buf = some (Except.error ea)) := by
  refine ⟨?_, ?_, ?_⟩
  · intro buf m hp
    cases hares : extract_osc_address buf 0 with
    | none => rw [parse, hares] at hp; exact Option.noConfusion hp
    | some ar =>
      cases ar with
      | error e =>
        cases hv : extract_osc_value buf 0 with
        | none =>
          simp only [parse, hares, hv] at hp
          exact Option.noConfusion hp
        | some vr =>
          simp only [parse, hares, hv] at hp
          exact Except.noConfusion (Option.some.inj hp)
      | ok a =>
        obtain ⟨addr1, ix1⟩ := a
        cases hv : extract_osc_value buf ix1 with
        | none =>
          simp only [parse, hares, hv] at hp
          exact Option.noConfusion hp
        | some vr =>
          cases vr with
          | error e2 =>
            simp only [parse, hares, hv] at hp
            exact Except.noConfusion (Option.some.inj hp)
          | ok v =>
            obtain ⟨ty1, v1, ix2⟩ := v
            simp only [parse, hares, hv] at hp
            have hm := Except.ok.inj (Option.some.inj hp)
            subst hm
            exact ⟨ix1, ix2, rfl, hv⟩
  · intro buf e hp
    cases hares : extract_osc_address buf 0 with
    | none => rw [parse, hares] at hp; exact Option.noConfusion hp
    | some ar =>
      cases ar with
      | error ea =>
        cases hv : extract_osc_value buf 0 with
        | none =>
          simp only [parse, hares, hv] at hp
          exact Option.noConfusion hp
        | some vr =>
          simp only [parse, hares, hv] at hp
          have he := Except.error.inj (Option.some.inj hp)
          subst he
          exact Or.inl rfl
      | ok a =>
        obtain ⟨addr1, ix1⟩ := a
        cases hv : extract_osc_value buf ix1 with
        | none =>
          simp only [parse, hares, hv] at hp
          exact Option.noConfusion hp
        | some vr =>
          cases vr with
          | error e2 =>
            simp only [parse, hares, hv] at hp
            have he := Except.error.inj (Option.some.inj hp)
            subst he
            exact Or.inr ⟨addr1, ix1, rfl, hv⟩
          | ok v =>
            simp only [parse, hares, hv] at hp
            exact Except.noConfusion (Option.some.inj hp)
  · intro buf ea r ha hv
    simp [parse, ha, hv]

/-- Witness for the amended C6: on `[1]` both components fail
(`InvalidAddress` and `InvalidType`) and the address error wins. -/
theorem parse_composition_witness :
    parse [1] = some (Except.error ParserError.InvalidAddress) :=
  parse_composition.2.2 [1] ParserError.InvalidAddress
    (Except.error ParserError.InvalidType) rfl rfl

/-- Claim C1 (code bug): decoding is not total.  On the buffer `['/']` the
address scan reads `buf[1]` past the end of the buffer: the address
extractor (and hence `parse`) performs an out-of-range access (modelled
`none`) instead of returning a Truncated-style error — `ParserError` has
no such variant at all. -/
theorem truncated_read_out_of_range :
    extract_osc_address [47] 0 = none ∧ parse [47] = none := ⟨rfl, rfl⟩

set_option maxRecDepth 8000 in
/-- Claim C2 (code bug): the bundle encoder writes past the 4096-byte
capacity.  The capacity check counts only the length prefix plus the
padded address, omitting the type-tag block and payload: with the cursor
at 4088 after 255 small messages, one more Int message with address "/a"
passes the check (4088 + 4 + 4 = 4096) and its comma byte lands at offset
4096 and its tag byte at 4097. -/
theorem bundle_writes_past_capacity :
    (create_osc_bundle 0 (fun _ => 0)
      (⟨[47, 97], OscType.Bool, { bool := true }⟩ ::
        ⟨[47, 97], OscType.Bool, { bool := true }⟩ ::
        List.replicate 254 ⟨[47, 97], OscType.Int, { int := 1 }⟩) 0).1 4096 = 44
  ∧ (create_osc_bundle 0 (fun _ => 0)
      (⟨[47, 97], OscType.Bool, { bool := true }⟩ ::
        ⟨[47, 97], OscType.Bool, { bool := true }⟩ ::
        List.replicate 254 ⟨[47, 97], OscType.Int, { int := 1 }⟩) 0).1 4097 = 105 := ⟨rfl, rfl⟩

set_option maxRecDepth 8000 in
/-- Claim C3 (code bug): the resume index is not reported.  With 341 small
Bool messages, 340 are written (4096 bytes exactly) and the 341st triggers
the capacity early return, which exits before the line that stores the
running index into the `messages_index` out-parameter: the caller sees the
original start index 0 instead of 340. -/
theorem bundle_resume_index_stale :
    (create_osc_bundle 0 (fun _ => 0)
      (List.replicate 341 ⟨[47, 97], OscType.Bool, { bool := true }⟩) 0).2.1 = 4096
  ∧ (create_osc_bundle 0 (fun _ => 0)
      (List.replicate 341 ⟨[47, 97], OscType.Bool, { bool := true }⟩) 0).2.2 = 0 := ⟨rfl, rfl⟩

/-- Claim C8 counterexample: encoding a Bool message into a buffer whose
every byte is initially 1 leaves byte 1 (not 0) in the two padding
positions of the type-tag block: the encoder never writes them. -/
theorem type_tag_padding_not_zeroed :
    (create_osc_message (fun _ => 1) 0 ⟨[47, 97], OscType.Bool, { bool := true }⟩).1 6 = 1
  ∧ (create_osc_message (fun _ => 1) 0 ⟨[47, 97], OscType.Bool, { bool := true }⟩).1 6 ≠ 0 :=
  ⟨rfl, by decide⟩

/-- Claim C8 (amended): for every encoded Int, Float or Bool message the
type-tag block starts at the padded address length `p` with `','` at `p`
and the tag character at `p + 1`, and the encoder advances past the two
padding positions `p + 2`, `p + 3` without writing them, so they retain
the output buffer's prior content (zero whenever the buffer is
zero-initialised, as in the repository's tests). -/
theorem type_tag_block (f : Nat → Nat) (addr : List Nat) (v : OscValue) :
    ((create_osc_message f 0 ⟨addr, OscType.Int, v⟩).1 (pad4 (addr.length + 1)) = 44
      ∧ (create_osc_message f 0 ⟨addr, OscType.Int, v⟩).1 (pad4 (addr.length + 1) + 1) = 105
      ∧ (create_osc_message f 0 ⟨addr, OscType.Int, v⟩).1 (pad4 (addr.length + 1) + 2) =
          f (pad4 (addr.length + 1) + 2)
      ∧ (create_osc_message f 0 ⟨addr, OscType.Int, v⟩).1 (pad4 (addr.length + 1) + 3) =
          f (pad4 (addr.length + 1) + 3))
  ∧ ((create_osc_message f 0 ⟨addr, OscType.Float, v⟩).1 (pad4 (addr.length + 1)) = 44
      ∧ (create_osc_message f 0 ⟨addr, OscType.Float, v⟩).1 (pad4 (addr.length + 1) + 1) = 102
      ∧ (create_osc_message f 0 ⟨addr, OscType.Float, v⟩).1 (pad4 (addr.length + 1) + 2) =
          f (pad4 (addr.length + 1) + 2)
      ∧ (create_osc_message f 0 ⟨addr, OscType.Float, v⟩).1 (pad4 (addr.length + 1) + 3) =
          f (pad4 (addr.length + 1) + 3))
  ∧ ((create_osc_message f 0 ⟨addr, OscType.Bool, v⟩).1 (pad4 (addr.length + 1)) = 44
      ∧ (create_osc_message f 0 ⟨addr, OscType.Bool, v⟩).1 (pad4 (addr.length + 1) + 1) =
          (if v.bool then 84 else 70)
      ∧ (create_osc_message f 0 ⟨addr, OscType.Bool, v⟩).1 (pad4 (addr.length + 1) + 2) =
          f (pad4 (addr.length + 1) + 2)
      ∧ (create_osc_message f 0 ⟨addr, OscType.Bool, v⟩).1 (pad4 (addr.length + 1) + 3) =
          f (pad4 (addr.length + 1) + 3)) := by
  have hP : addr.length + 1 ≤ pad4 (addr.length + 1) := pad4_ge _
  simp only [create_osc_message, write_address, Nat.zero_add]
  refine ⟨⟨?_, ?_, ?_, ?_⟩, ⟨?_, ?_, ?_, ?_⟩, ⟨?_, ?_, ?_, ?_⟩⟩
  · rw [writeSlice_low _ _ _ _ (by omega), setB_other _ _ _ _ (by omega), setB_self]
  · rw [writeSlice_low _ _ _ _ (by omega), setB_self]
  · rw [writeSlice_low _ _ _ _ (by omega), setB_other _ _ _ _ (by omega),
        setB_other _ _ _ _ (by omega), setB_other _ _ _ _ (by omega),
        writeSlice_high _ _ _ _ (by omega)]
  · rw [writeSlice_low _ _ _ _ (by omega), setB_other _ _ _ _ (by omega),
        setB_other _ _ _ _ (by omega), setB_other _ _ _ _ (by omega),
        writeSlice_high _ _ _ _ (by omega)]
  · rw [writeSlice_low _ _ _ _ (by omega), setB_other _ _ _ _ (by omega), setB_self]
  · rw [writeSlice_low _ _ _ _ (by omega), setB_self]
  · rw [writeSlice_low _ _ _ _ (by omega), setB_other _ _ _ _ (by omega),
        setB_other _ _ _ _ (by omega), setB_other _ _ _ _ (by omega),
        writeSlice_high _ _ _ _ (by omega)]
  · rw [writeSlice_low _ _ _ _ (by omega), setB_other _ _ _ _ (by omega),
        setB_other _ _ _ _ (by omega), setB_other _ _ _ _ (by omega),
        writeSlice_high _ _ _ _ (by omega)]
  · rw [setB_other _ _ _ _ (by omega), setB_self]
  · rw [setB_self]
  · rw [setB_other _ _ _ _ (by omega), setB_other _ _ _ _ (by omega),
        setB_other _ _ _ _ (by omega), writeSlice_high _ _ _ _ (by omega)]
  · rw [setB_other _ _ _ _ (by omega), setB_other _ _ _ _ (by omega),
        setB_other _ _ _ _ (by omega), writeSlice_high _ _ _ _ (by omega)]

/-- Claim C9: for every message of type String, the encoder writes only the
address block (address bytes and null terminator, the padding cursor skip
writing nothing) followed by the single `','` byte, writes no tag
character and no string payload (every position after the comma is left
untouched), and returns the padded address length plus 1. -/
theorem string_encode_gap (f : Nat → Nat) (addr : List Nat) (v : OscValue) :
    (create_osc_message f 0 ⟨addr, OscType.String, v⟩).2 = pad4 (addr.length + 1) + 1
  ∧ (create_osc_message f 0 ⟨addr, OscType.String, v⟩).1 (pad4 (addr.length + 1)) = 44
  ∧ (∀ (k w : Nat), addr[k]? = some w →
      (create_osc_message f 0 ⟨addr, OscType.String, v⟩).1 k = w)
  ∧ (create_osc_message f 0 ⟨addr, OscType.String, v⟩).1 addr.length = 0
  ∧ (∀ j : Nat, addr.length < j → j ≠ pad4 (addr.length + 1) →
      (create_osc_message f 0 ⟨addr, OscType.String, v⟩).1 j = f j) := by
  have hP : addr.length + 1 ≤ pad4 (addr.length + 1) := pad4_ge _
  simp only [create_osc_message, write_address, Nat.zero_add]
  refine ⟨trivial, ?_, ?_, ?_, ?_⟩
  · rw [setB_self]
  · intro k w hk
    have hkA : k < addr.length := getElem?_lt_length hk
    rw [setB_other _ _ _ _ (by omega), setB_other _ _ _ _ (by omega)]
    have hw := writeSlice_getD addr f 0 k hkA
    rw [Nat.zero_add] at hw
    rw [hw, List.getD_eq_getElem?_getD, hk]
    rfl
  · rw [setB_other _ _ _ _ (by omega), setB_self]
  · intro j hjA hjP
    rw [setB_other _ _ _ _ hjP, setB_other _ _ _ _ (by omega),
        writeSlice_high _ _ _ _ (by omega)]

/-- Witness for C9: encoding a String message with address "/a" into the
constant-5 buffer returns 5 bytes and leaves offset 9 untouched. -/
theorem string_encode_gap_witness :
    (create_osc_message (fun _ => 5) 0 ⟨[47, 97], OscType.String, {}⟩).2 = 5
  ∧ (create_osc_message (fun _ => 5) 0 ⟨[47, 97], OscType.String, {}⟩).1 9 = 5 :=
  ⟨(string_encode_gap (fun _ => 5) [47, 97] {}).1,
   (string_encode_gap (fun _ => 5) [47, 97] {}).2.2.2.2 9 (by decide) (by decide)⟩

/-! ### Bundle lemmas -/

/-- `create_osc_message` writes only at offsets at or above `base`. -/
theorem cm_low (f : Nat → Nat) (base : Nat) (m : OscMessage) (j : Nat) (hj : j < base) :
    (create_osc_message f base m).1 j = f j := by
  obtain ⟨addr, ty, v⟩ := m
  have hP : addr.length + 1 ≤ pad4 (addr.length + 1) := pad4_ge _
  cases ty <;> simp only [create_osc_message, write_address]
  · rw [writeSlice_low _ _ _ _ (by omega), setB_other _ _ _ _ (by omega),
        setB_other _ _ _ _ (by omega), setB_other _ _ _ _ (by omega),
        writeSlice_low _ _ _ _ (by omega)]
  · rw [writeSlice_low _ _ _ _ (by omega), setB_other _ _ _ _ (by omega),
        setB_other _ _ _ _ (by omega), setB_other _ _ _ _ (by omega),
        writeSlice_low _ _ _ _ (by omega)]
  · rw [setB_other _ _ _ _ (by omega), setB_other _ _ _ _ (by omega),
        setB_other _ _ _ _ (by omega), writeSlice_low _ _ _ _ (by omega)]
  · rw [setB_other _ _ _ _ (by omega), setB_other _ _ _ _ (by omega),
        writeSlice_low _ _ _ _ (by omega)]

/-- The bundle message loop writes only at offsets at or above its cursor. -/
theorem bundleLoop_low (msgs : List OscMessage) :
    ∀ (f : Nat → Nat) (ix mix s0 j : Nat), j < ix →
      (bundleLoop f ix msgs mix s0).1 j = f j := by
  induction msgs with
  | nil => intro f ix mix s0 j hj; rfl
  | cons msg rest ih =>
    intro f ix mix s0 j hj
    simp only [bundleLoop]
    split
    · rfl
    · cases hcm : create_osc_message f (ix + 4) msg with
      | mk f2 len =>
        dsimp only
        have hf2 : f2 j = f j := by
          have hc := cm_low f (ix + 4) msg j (by omega)
          rw [hcm] at hc
          exact hc
        rw [ih _ _ _ _ j (by omega), writeSlice_low _ _ _ _ hj, hf2]

/-- The bundle message loop never decreases the byte cursor. -/
theorem bundleLoop_ge (msgs : List OscMessage) :
    ∀ (f : Nat → Nat) (ix mix s0 : Nat), ix ≤ (bundleLoop f ix msgs mix s0).2.1 := by
  induction msgs with
  | nil => intro f ix mix s0; exact Nat.le_refl ix
  | cons msg rest ih =>
    intro f ix mix s0
    simp only [bundleLoop]
    split
    · exact Nat.le_refl ix
    · cases hcm : create_osc_message f (ix + 4) msg with
      | mk f2 len =>
        dsimp only
        have hge := ih (writeSlice f2 ix (be4 (len % 4294967296))) (ix + len + 4) (mix + 1) s0
        omega

/-- Claim C10: every call to `create_osc_bundle` — including with an empty
message sequence or a start index at or past the end — writes the literal
`"#bundle\0"` as the first 8 bytes and the big-endian 64-bit timetag as
the next 8, and returns a byte count of at least 16; with no messages to
write the output is exactly the 16-byte header (nothing beyond offset 16
is touched) and the reported next index equals the start index. -/
theorem bundle_header_spec (time : Nat) (f : Nat → Nat) (msgs : List OscMessage)
    (start : Nat) :
    (∀ k : Nat, k < 8 →
        (create_osc_bundle time f msgs start).1 k = bundleHeader.getD k 0)
  ∧ (∀ k : Nat, k < 8 →
        (create_osc_bundle time f msgs start).1 (8 + k) =
          (be8 (time % 18446744073709551616)).getD k 0)
  ∧ 16 ≤ (create_osc_bundle time f msgs start).2.1
  ∧ (msgs.drop start = [] →
        (create_osc_bundle time f msgs start).2.1 = 16
      ∧ (create_osc_bundle time f msgs start).2.2 = start
      ∧ ∀ j : Nat, 16 ≤ j → (create_osc_bundle time f msgs start).1 j = f j) := by
  have hlen8 : (be8 (time % 18446744073709551616)).length = 8 := by simp [be8, be4]
  have hlenH : bundleHeader.length = 8 := rfl
  simp only [create_osc_bundle]
  refine ⟨?_, ?_, ?_, ?_⟩
  · intro k hk
    rw [bundleLoop_low _ _ _ _ _ k (by omega), writeSlice_low _ _ _ _ (by omega)]
    have hw := writeSlice_getD bundleHeader f 0 k (by omega)
    rw [Nat.zero_add] at hw
    exact hw
  · intro k hk
    rw [bundleLoop_low _ _ _ _ _ (8 + k) (by omega)]
    exact writeSlice_getD _ _ 8 k (by omega)
  · exact bundleLoop_ge _ _ _ _ _
  · intro hdrop
    rw [hdrop]
    refine ⟨rfl, rfl, ?_⟩
    intro j hj
    show writeSlice (writeSlice f 0 bundleHeader) 8 _ j = f j
    rw [writeSlice_high _ _ _ _ (by omega), writeSlice_high _ _ _ _ (by omega)]

/-- Witness for C10: the empty bundle at time 0 into a zero buffer has the
header byte 35 at offset 0, length 16, and next index 0. -/
theorem bundle_header_spec_witness :
    (create_osc_bundle 0 (fun _ => 0) [] 0).1 0 = 35
  ∧ (create_osc_bundle 0 (fun _ => 0) [] 0).2.1 = 16
  ∧ (create_osc_bundle 0 (fun _ => 0) [] 0).2.2 = 0 :=
  ⟨Eq.trans ((bundle_header_spec 0 (fun _ => 0) [] 0).1 0 (by decide)) rfl,
   ((bundle_header_spec 0 (fun _ => 0) [] 0).2.2.2 rfl).1,
   ((bundle_header_spec 0 (fun _ => 0) [] 0).2.2.2 rfl).2.1⟩

end SimpleRustOSC
